import Mathlib

/-!
Verification development for the `archupd` repository (Go).

The Go sources are shallowly embedded below:

* `State`, `readState` — the persisted poll-state store;
* `readNews` (two variants, namespaces `Archupd` and `Updall`) — the
  background news-feed poller, embedded as a pure function from the initial
  state and an abstract fetch outcome to the channel messages it sends and
  the list of states it persists;
* `getChangelogs` — the pacman `-Qc` snapshot parser;
* `showChangelogDiff` — the pre/post changelog differ;
* `removeSuperfluousPackages` — the orphan-package removal flow;
* `logMonitor` — the pacman log tail monitor;
* `mainSteps` — the orchestration sequence of `main`, as a trace of steps.

Machine-level effects (files, sockets, processes) are modelled by explicit
inputs: the file content at read time, the HTTP response, a command's
captured output and exit code.  Channel sends are modelled as a list of
structured messages (`Msg`), one constructor per distinct send site, since
the claims concern which branch emitted a message, not the exact prose.
-/

/-- The persisted record (`type State struct` in `archupd.go`):
`last_modified` cache validator and `latest_seen` item timestamp.
Timestamps (`time.Time`) are modelled as integers; `t.After(u)` is `u < t`. -/
structure State where
  lastModified : String
  latestItemTime : Int
  deriving DecidableEq, Repr

/-- The zero value `State{}` of the Go struct. -/
def State.zero : State := { lastModified := "", latestItemTime := 0 }

/-- A feed item (`type FeedItem struct`): title, link, pubDate, guid. -/
structure FeedItem where
  title : String
  link : String
  time : Int
  guid : String
  deriving DecidableEq, Repr

/-- Outcome of the state file open in `readState`: the file may be missing
(`fs.ErrNotExist`), fail to open for another reason, or open with content. -/
inductive StateFileCond where
  | notExist
  | openFailed (msg : String)
  | opened (content : String)
  deriving DecidableEq

/-- Embedding of `readState` (`archupd.go`).  The JSON decoder is Go-stdlib
code external to the repository; it is passed in as a function `dec`
returning the contents it leaves in the zero-initialised `var state State`
together with whether it returned an error.  Go's `json.Decode` populates
fields best-effort before reporting a type error, so on malformed content
the left-behind record may be partially filled rather than zero-valued.
`readState` drops the decode error and returns the record as is.  The
second component is the list of diagnostics printed: an open error is
printed unless it is `fs.ErrNotExist`; a missing file and a decode failure
print nothing. -/
def readState (dec : String → State × Bool) : StateFileCond → State × List String
  | StateFileCond.notExist => (State.zero, [])
  | StateFileCond.openFailed msg => (State.zero, [msg])
  | StateFileCond.opened content => ((dec content).1, [])

/-- Best-effort result of Go's `json.Decode` on the malformed content
`\x7b"last_modified":"abc","latest_seen":"notatime"\x7d` (documented
`encoding/json` behaviour): the earlier `last_modified` field is populated
before the type error on `latest_seen` aborts the decode with an error. -/
def partialDecodeAbc : String → State × Bool :=
  fun _ => ({ lastModified := "abc", latestItemTime := 0 }, true)

/-- Model of Go's `strings.Split(s, "\n")` on the character list of `s`,
carrying the current piece (reversed) as an accumulator.  A split with a
non-empty separator always yields at least one piece; the empty string
yields the single piece `[""]`. -/
def splitNl (acc : List Char) : List Char → List (List Char)
  | [] => [acc.reverse]
  | c :: cs => if c = '\n' then acc.reverse :: splitNl [] cs else splitNl (c :: acc) cs

/-- Model of Go's `strings.Split(s, "\n")` as a function on strings. -/
def goSplitNl (s : String) : List String := (splitNl [] s.data).map String.mk

/-- Model of Go's `strings.TrimRight(s, "\n")`: remove all trailing
newline characters. -/
def trimRightNl (s : String) : String :=
  String.mk ((s.data.reverse.dropWhile (fun c => c = '\n')).reverse)

/-- Result of running the captured-output orphan query
`sudo pacman -Qqtd` (`cmd.Run()` plus the `strings.Builder` output):
clean exit with captured output, non-zero exit (`*exec.ExitError`),
or a non-exit error (e.g. the command could not be started). -/
inductive RunResult where
  | success (output : String)
  | exitError (code : Int) (output : String)
  | startError (msg : String)
  deriving DecidableEq

/-- What `removeSuperfluousPackages` does with the query result:
print "No superfluous packages" and return nil; propagate the error;
return nil early because the package list is empty; or invoke the
interactive `sudo pacman -Rs <pkgs>` removal. -/
inductive RemoveOutcome where
  | noSuperfluous
  | propagated (code : Int)
  | startFailed (msg : String)
  | nothingToRemove
  | removeInvoked (pkgs : List String)
  deriving DecidableEq

/-- Embedding of `removeSuperfluousPackages` (`archupd.go`): an
`*exec.ExitError` with code 1 means "no orphans" (nil, no removal); any
other error propagates; on success the trimmed output is split on newlines
and, unless the list is empty, the removal command is invoked on it. -/
def removeSuperfluousPackages : RunResult → RemoveOutcome
  | RunResult.exitError code _ =>
    if code = 1 then RemoveOutcome.noSuperfluous else RemoveOutcome.propagated code
  | RunResult.startError msg => RemoveOutcome.startFailed msg
  | RunResult.success output =>
    let pkgs := goSplitNl (trimRightNl output)
    if pkgs = [] then RemoveOutcome.nothingToRemove else RemoveOutcome.removeInvoked pkgs

/-- The monitor handle (`type logMonitor struct { *os.File }`): after
`newLogMonitor` seeks to end-of-file, all that matters for reads is the
recorded position in the file. -/
structure logMonitor where
  pos : Nat
  deriving DecidableEq, Repr

/-- Embedding of `newLogMonitor`: open the file and `Seek(0, SEEK_END)`;
the position is the length of the content present at open time. -/
def newLogMonitor (content : List Char) : logMonitor := { pos := content.length }

/-- Embedding of `logMonitor.catchUp` (`updall.go`): `io.ReadAll` from the
recorded position of the file's current content, returned as a string. -/
def logMonitor.catchUp (m : logMonitor) (content : List Char) : String :=
  String.mk (content.drop m.pos)

/-- Line handling of `bufio.ScanLines`: one trailing carriage return is
dropped from each line. -/
def dropCR (l : List Char) : List Char :=
  if l.getLast? = some '\x0d' then l.dropLast else l

/-- Drop the final piece when it is empty: after a terminating newline the
scanner produces no further (empty) token. -/
def dropFinalEmpty : List (List Char) → List (List Char)
  | [] => []
  | [x] => if x = [] then [] else [x]
  | x :: xs => x :: dropFinalEmpty xs

/-- The line sequence a `bufio.Scanner` with `ScanLines` yields on `s`:
split on newlines, no empty token after a terminating newline, one
trailing carriage return stripped per line. -/
def scanLines (s : String) : List String :=
  (dropFinalEmpty (splitNl [] s.data)).map (fun l => String.mk (dropCR l))

/-- Embedding of `logMonitor.lines` (`archupd.go`): a `bufio.Scanner` over
the file content from the recorded position. -/
def logMonitor.lines (m : logMonitor) (content : List Char) : List String :=
  scanLines (String.mk (content.drop m.pos))

/-- The messages `readNews` sends on its channel, one constructor per send
site.  The exact prose (and the local-time formatting of an item's date)
is abstracted; `itemLine it` stands for the formatted
"  - <date>: <title> (<link>)" line of item `it`. -/
inductive Msg where
  | diag (s : String)
  | noNews
  | badStatus (status : Nat)
  | parseFailed (s : String)
  | emptyFeed
  | newsHeader
  | itemLine (it : FeedItem)
  | noNewNews
  deriving DecidableEq, Repr

/-- How the body of a 200 response fares under `xml.Decoder.Decode`:
either a decode error or the parsed item list. -/
inductive ParseOutcome where
  | failure (msg : String)
  | success (items : List FeedItem)
  deriving DecidableEq

/-- Outcome of the HTTP fetch in `readNews`: request-construction failure,
network failure of `Do`, or a response with a status code, an optional
`Last-Modified` header value, and a body. -/
inductive FetchOutcome where
  | reqError (msg : String)
  | netError (msg : String)
  | response (status : Nat) (lastModified : Option String) (body : ParseOutcome)
  deriving DecidableEq

/-- The conditional-request header of `readNews`: `If-Modified-Since` is
attached iff the stored `last_modified` is non-empty. -/
def condHeader (st : State) : Option String :=
  if st.lastModified ≠ "" then some st.lastModified else none

/-- The `Last-Modified` capture of `readNews`: overwrite
`state.LastModified` with the response header value when the header is
present. -/
def captureLastModified (st : State) (lastMod : Option String) : State :=
  match lastMod with
  | some lm => { st with lastModified := lm }
  | none => st

/-- Insertion step of the descending
`sort.Slice(items, items[i].Time.After(items[j].Time))`. -/
def insertDesc (it : FeedItem) : List FeedItem → List FeedItem
  | [] => [it]
  | x :: xs => if x.time < it.time then it :: x :: xs else x :: insertDesc it xs

/-- The descending-by-time sort performed by `readNews` before filtering. -/
def sortByTimeDesc (l : List FeedItem) : List FeedItem := l.foldr insertDesc []

namespace Archupd

/-- Embedding of `readNews` (`archupd.go`).  Returns the channel messages
in order and the list of states persisted by `writeState` (the
`defer writeState(&state)` is registered only after a successful decode,
so a decode failure persists nothing). -/
def readNews (state : State) (fetch : FetchOutcome) : List Msg × List State :=
  match fetch with
  | FetchOutcome.reqError msg => ([Msg.diag ("failed to formulate request: " ++ msg)], [])
  | FetchOutcome.netError msg => ([Msg.diag ("failed to send request: " ++ msg)], [])
  | FetchOutcome.response status lastMod body =>
    if status = 304 then ([Msg.noNews], [])
    else if status ≠ 200 then ([Msg.badStatus status], [])
    else
      let state1 := captureLastModified state lastMod
      match body with
      | ParseOutcome.failure msg => ([Msg.parseFailed msg], [])
      | ParseOutcome.success items =>
        match sortByTimeDesc items with
        | [] => ([Msg.emptyFeed], [state1])
        | first :: rest =>
          let news := (first :: rest).filter (fun it => decide (state.latestItemTime < it.time))
          let msgs := if news.isEmpty then [Msg.noNewNews]
                      else Msg.newsHeader :: news.map Msg.itemLine
          (msgs, [{ state1 with latestItemTime := first.time }])

end Archupd

namespace Updall

/-- Embedding of `readNews` (`updall.go`).  Identical control flow except
that `defer writeState(&state)` is registered before the decode, so a
decode failure still persists the state with the captured validator, and
item lines carry no header message. -/
def readNews (state : State) (fetch : FetchOutcome) : List Msg × List State :=
  match fetch with
  | FetchOutcome.reqError msg => ([Msg.diag ("Failed to formulate request: " ++ msg)], [])
  | FetchOutcome.netError msg => ([Msg.diag ("Failed to send request: " ++ msg)], [])
  | FetchOutcome.response status lastMod body =>
    if status = 304 then ([Msg.noNews], [])
    else if status ≠ 200 then ([Msg.badStatus status], [])
    else
      let state1 := captureLastModified state lastMod
      match body with
      | ParseOutcome.failure msg => ([Msg.parseFailed msg], [state1])
      | ParseOutcome.success items =>
        match sortByTimeDesc items with
        | [] => ([Msg.emptyFeed], [state1])
        | first :: rest =>
          let news := (first :: rest).filter (fun it => decide (state.latestItemTime < it.time))
          let msgs := news.map Msg.itemLine ++ (if news.isEmpty then [Msg.noNewNews] else [])
          (msgs, [{ state1 with latestItemTime := first.time }])

end Updall

/-- Test whether the message is a formatted item line. -/
def isItemMsg : Msg → Bool
  | Msg.itemLine _ => true
  | _ => false

/-- The item carried by a formatted item line, if any. -/
def itemOf : Msg → Option FeedItem
  | Msg.itemLine it => some it
  | _ => none

/-- Test whether the first character list is a prefix of the second. -/
def leadsWith : List Char → List Char → Bool
  | [], _ => true
  | _ :: _, [] => false
  | a :: as, b :: bs => a = b && leadsWith as bs

/-- Application of `CHANGELOG_PACKAGE_REGEXP = ^Changelog for (.+):$` to a
line (which contains no newline): the line must start with
"Changelog for " (14 characters), end with ":", and have a non-empty
capture between the two; the greedy capture is everything up to the final
colon. -/
def headerMatch (line : String) : Option String :=
  if leadsWith "Changelog for ".data line.data = true ∧ line.data.getLast? = some ':' ∧
      (line.data.drop 14).dropLast ≠ []
  then some (String.mk ((line.data.drop 14).dropLast)) else none

/-- Go map insert `result[k] = v` on the association-list representation:
replace the value when the key is present, append the binding otherwise. -/
def mapInsert (m : List (String × String)) (k v : String) : List (String × String) :=
  if m.any (fun kv => kv.1 = k) then m.map (fun kv => if kv.1 = k then (k, v) else kv)
  else m ++ [(k, v)]

/-- The scanner loop of `getChangelogs`, with the mutable `currPkg`,
`currLog` and `result` threaded through: a header line flushes the current
package (when any) and starts a fresh buffer; every other line is appended
with its newline; the final package is flushed at end of input. -/
def getChangelogsLoop : List String → String → String → List (String × String) →
    List (String × String)
  | [], currPkg, currLog, result =>
    if currPkg ≠ "" then mapInsert result currPkg currLog else result
  | line :: rest, currPkg, currLog, result =>
    match headerMatch line with
    | some name =>
      getChangelogsLoop rest name ""
        (if currPkg ≠ "" then mapInsert result currPkg currLog else result)
    | none =>
      getChangelogsLoop rest currPkg (currLog ++ line.push '\n') result

/-- Embedding of `getChangelogs` (`archupd.go`), as a function of the
captured `pacman -Qc` output text. -/
def getChangelogs (output : String) : List (String × String) :=
  getChangelogsLoop (scanLines output) "" "" []

/-- Accumulator of the spec-side parser, for the refinement half of C1:
the current package's name and buffer (none before the first header line)
plus the result mapping built so far. -/
structure ParseAcc where
  curr : Option (String × String)
  result : List (String × String)

/-- One line of the spec's parsing algorithm (§4.5): a header line starts
a new package's accumulation buffer, flushing the previous package's text
first, if any; every other line is appended verbatim with its trailing
newline to the current package's buffer (and dropped before the first
header). -/
def specChangelogStep (st : ParseAcc) (line : String) : ParseAcc :=
  match headerMatch line with
  | some name =>
    { curr := some (name, ""),
      result :=
        match st.curr with
        | some pl => mapInsert st.result pl.1 pl.2
        | none => st.result }
  | none =>
    match st.curr with
    | some pl => { curr := some (pl.1, pl.2 ++ line.push '\n'), result := st.result }
    | none => st

/-- End-of-input flush of the spec's algorithm. -/
def specFlush (st : ParseAcc) : List (String × String) :=
  match st.curr with
  | some pl => mapInsert st.result pl.1 pl.2
  | none => st.result

/-- The spec's parsing algorithm end to end. -/
def specGetChangelogs (output : String) : List (String × String) :=
  specFlush ((scanLines output).foldl specChangelogStep { curr := none, result := [] })

/-- Correspondence between the source's loop state and the spec's
accumulator: `currPkg = ""` means "no package yet" (the junk in `currLog`
is never flushed), otherwise the pair is the current package. -/
def toAcc (currPkg currLog : String) (result : List (String × String)) : ParseAcc :=
  { curr := if currPkg = "" then none else some (currPkg, currLog), result := result }

/-- Go map lookup `pre[pkg]` on the association-list representation. -/
def mapLookup : List (String × String) → String → Option String
  | [], _ => none
  | kv :: rest, k => if kv.1 = k then some kv.2 else mapLookup rest k

/-- Embedding of `showChangelogDiff`: iterate over the post-upgrade map;
a package renders a diff iff it is also in the pre map with different
text.  Returns the packages rendered, in iteration order, and whether the
"No updated changelogs." message is printed (iff nothing rendered). -/
def showChangelogDiff (changelogsPre changelogsPost : List (String × String)) :
    List String × Bool :=
  let rendered := (changelogsPost.filter (fun kv =>
    match mapLookup changelogsPre kv.1 with
    | some logPre => logPre != kv.2
    | none => false)).map Prod.fst
  (rendered, rendered.isEmpty)

/-- Test whether the first character list occurs contiguously in the
second (`bytes.Contains`). -/
def occursIn (needle : List Char) : List Char → Bool
  | [] => leadsWith needle []
  | b :: bs => leadsWith needle (b :: bs) || occursIn needle bs

/-- The marker substring of pacman-authored log lines. -/
def PACMAN_LOG_ALPM_MARKER : String := " [ALPM] "

/-- The post-upgrade scan of `main`: fold over the appended log lines,
setting `foundALPMLogs` on every line containing the marker. -/
def foundALPMLogs (tailLines : List String) : Bool :=
  tailLines.foldl (fun found line =>
    found || occursIn PACMAN_LOG_ALPM_MARKER.data line.data) false

/-- The observable steps of `main`'s orchestration sequence. -/
inductive Step where
  | cleanPacman
  | snapshotPre
  | watchOpen
  | upgrade
  | tailRead
  | snapshotPost
  | diffChangelogs
  | removeOrphans
  | drainNews
  deriving DecidableEq, Repr

/-- Embedding of `main`'s run sequence on the success path, as a function
of the log lines appended during the upgrade: the post-snapshot, diff and
orphan-removal steps run only under `if foundALPMLogs`. -/
def mainSteps (tailLines : List String) : List Step :=
  [Step.cleanPacman, Step.snapshotPre, Step.watchOpen, Step.upgrade, Step.tailRead] ++
  (if foundALPMLogs tailLines then [Step.snapshotPost, Step.diffChangelogs, Step.removeOrphans]
   else []) ++
  [Step.drainNews]

/-! Helper lemmas. -/

theorem splitNl_ne_nil (l acc : List Char) : splitNl acc l ≠ [] := by
  induction l generalizing acc with
  | nil => simp [splitNl]
  | cons c cs ih =>
    by_cases h : c = '\n'
    · simp [splitNl, h]
    · simp only [splitNl, if_neg h]
      exact ih _

theorem goSplitNl_ne_nil (s : String) : goSplitNl s ≠ [] := by
  have h := splitNl_ne_nil s.data []
  simp [goSplitNl]
  intro hc
  exact h hc

theorem insertDesc_perm (it : FeedItem) (l : List FeedItem) :
    (insertDesc it l).Perm (it :: l) := by
  induction l with
  | nil => exact List.Perm.refl _
  | cons x xs ih =>
    by_cases h : x.time < it.time
    · simp [insertDesc, h]
    · simp only [insertDesc, if_neg h]
      exact (ih.cons x).trans (List.Perm.swap it x xs)

theorem sortByTimeDesc_perm (l : List FeedItem) : (sortByTimeDesc l).Perm l := by
  induction l with
  | nil => exact List.Perm.refl _
  | cons x xs ih =>
    exact (insertDesc_perm x (sortByTimeDesc xs)).trans (ih.cons x)

theorem mem_insertDesc {y it : FeedItem} {l : List FeedItem} :
    y ∈ insertDesc it l ↔ y = it ∨ y ∈ l := by
  rw [(insertDesc_perm it l).mem_iff]
  simp

theorem insertDesc_pairwise {it : FeedItem} {l : List FeedItem}
    (h : l.Pairwise (fun a b => b.time ≤ a.time)) :
    (insertDesc it l).Pairwise (fun a b => b.time ≤ a.time) := by
  induction l with
  | nil => simp [insertDesc]
  | cons x xs ih =>
    rcases List.pairwise_cons.mp h with ⟨hx, hxs⟩
    by_cases hlt : x.time < it.time
    · simp only [insertDesc, if_pos hlt]
      refine List.pairwise_cons.mpr ⟨?_, h⟩
      intro y hy
      rcases List.mem_cons.mp hy with rfl | hy'
      · exact le_of_lt hlt
      · exact (hx y hy').trans (le_of_lt hlt)
    · simp only [insertDesc, if_neg hlt]
      refine List.pairwise_cons.mpr ⟨?_, ih hxs⟩
      intro y hy
      rcases mem_insertDesc.mp hy with rfl | hy'
      · exact le_of_not_lt hlt
      · exact hx y hy'

theorem sortByTimeDesc_pairwise (l : List FeedItem) :
    (sortByTimeDesc l).Pairwise (fun a b => b.time ≤ a.time) := by
  induction l with
  | nil => simp [sortByTimeDesc]
  | cons x xs ih => exact insertDesc_pairwise ih

/-- The head of the descending sort bounds every timestamp in the list. -/
theorem sortByTimeDesc_head_max {l : List FeedItem} {first : FeedItem}
    {rest : List FeedItem} (h : sortByTimeDesc l = first :: rest) :
    ∀ y ∈ l, y.time ≤ first.time := by
  intro y hy
  have hmem : y ∈ first :: rest := h ▸ (sortByTimeDesc_perm l).symm.subset hy
  rcases List.mem_cons.mp hmem with rfl | hyr
  · exact le_refl _
  · have hp := sortByTimeDesc_pairwise l
    rw [h] at hp
    exact (List.pairwise_cons.mp hp).1 y hyr

theorem count_itemLine (msgs : List Msg) (it : FeedItem) :
    msgs.count (Msg.itemLine it) = (msgs.filterMap itemOf).count it := by
  induction msgs with
  | nil => rfl
  | cons m rest ih =>
    cases m <;> simp [itemOf, List.count_cons, List.filterMap_cons, ih]

/-- The item lines sent by a successful archupd poll are exactly the
sorted items strictly newer than the stored watermark, in order. -/
theorem readNews_success_itemLines (st : State) (lm : Option String)
    (items : List FeedItem) :
    ((Archupd.readNews st (FetchOutcome.response 200 lm (ParseOutcome.success items))).1).filterMap itemOf
      = (sortByTimeDesc items).filter (fun x => decide (st.latestItemTime < x.time)) := by
  cases h : sortByTimeDesc items with
  | nil => simp [Archupd.readNews, h, itemOf]
  | cons first rest =>
    simp only [Archupd.readNews, h]
    by_cases he : ((first :: rest).filter (fun x => decide (st.latestItemTime < x.time))).isEmpty
    · rw [List.isEmpty_iff] at he
      simp [he, itemOf]
    · simp [he, List.filterMap_cons, itemOf, List.filterMap_map, Function.comp_def,
        List.filterMap_some]

theorem headerMatch_ne_empty {line name : String} (h : headerMatch line = some name) :
    name ≠ "" := by
  unfold headerMatch at h
  split at h
  · rename_i hc
    cases h
    intro he
    exact hc.2.2 (congrArg String.data he)
  · cases h

theorem getChangelogsLoop_eq_spec (lines : List String) :
    ∀ currPkg currLog result,
      getChangelogsLoop lines currPkg currLog result =
        specFlush (lines.foldl specChangelogStep (toAcc currPkg currLog result)) := by
  induction lines with
  | nil =>
    intro p l r
    by_cases hp : p = "" <;> simp [getChangelogsLoop, specFlush, toAcc, hp]
  | cons line rest ih =>
    intro p l r
    cases hm : headerMatch line with
    | some name =>
      have hn : name ≠ "" := headerMatch_ne_empty hm
      have hstep : specChangelogStep (toAcc p l r) line
          = toAcc name "" (if p ≠ "" then mapInsert r p l else r) := by
        by_cases hp : p = "" <;> simp [specChangelogStep, hm, toAcc, hp, hn]
      calc getChangelogsLoop (line :: rest) p l r
          = getChangelogsLoop rest name "" (if p ≠ "" then mapInsert r p l else r) := by
            simp only [getChangelogsLoop, hm]
        _ = specFlush (List.foldl specChangelogStep
              (toAcc name "" (if p ≠ "" then mapInsert r p l else r)) rest) := ih _ _ _
        _ = specFlush (List.foldl specChangelogStep (toAcc p l r) (line :: rest)) := by
            rw [List.foldl_cons, hstep]
    | none =>
      have hstep : specChangelogStep (toAcc p l r) line
          = toAcc p (l ++ line.push '\n') r := by
        by_cases hp : p = "" <;> simp [specChangelogStep, hm, toAcc, hp]
      calc getChangelogsLoop (line :: rest) p l r
          = getChangelogsLoop rest p (l ++ line.push '\n') r := by
            simp only [getChangelogsLoop, hm]
        _ = specFlush (List.foldl specChangelogStep (toAcc p (l ++ line.push '\n') r) rest) :=
            ih _ _ _
        _ = specFlush (List.foldl specChangelogStep (toAcc p l r) (line :: rest)) := by
            rw [List.foldl_cons, hstep]

theorem mapLookup_mem {m : List (String × String)} {k v : String}
    (h : mapLookup m k = some v) : (k, v) ∈ m := by
  induction m with
  | nil => cases h
  | cons kv rest ih =>
    by_cases hk : kv.1 = k
    · simp only [mapLookup, if_pos hk] at h
      cases h
      subst hk
      simp
    · simp only [mapLookup, if_neg hk] at h
      exact List.mem_cons_of_mem _ (ih h)

theorem mem_mapLookup {m : List (String × String)} {k v : String}
    (hnd : (m.map Prod.fst).Nodup) (h : (k, v) ∈ m) : mapLookup m k = some v := by
  induction m with
  | nil => cases h
  | cons kv rest ih =>
    rcases List.mem_cons.mp h with rfl | hrest
    · simp [mapLookup]
    · have hnd' := List.nodup_cons.mp hnd
      have hk : kv.1 ≠ k := by
        intro he
        exact hnd'.1 (he ▸ (List.mem_map.mpr ⟨(k, v), hrest, rfl⟩))
      simp only [mapLookup, if_neg hk]
      exact ih hnd'.2 hrest

theorem leadsWith_iff {n h : List Char} : leadsWith n h = true ↔ n.IsPrefix h := by
  induction n generalizing h with
  | nil => simp [leadsWith]
  | cons a as ih =>
    cases h with
    | nil => simp [leadsWith]
    | cons b bs =>
      simp only [leadsWith, Bool.and_eq_true, decide_eq_true_eq, ih]
      constructor
      · rintro ⟨rfl, t, rfl⟩
        exact ⟨t, rfl⟩
      · rintro ⟨t, ht⟩
        cases ht
        exact ⟨rfl, t, rfl⟩

theorem occursIn_iff {n h : List Char} : occursIn n h = true ↔ n.IsInfix h := by
  induction h with
  | nil => simp [occursIn, leadsWith_iff, List.prefix_iff_eq_take]
  | cons b bs ih =>
    simp only [occursIn, Bool.or_eq_true, leadsWith_iff, ih]
    exact (List.infix_cons_iff).symm

theorem foundALPMLogs_any (tailLines : List String) :
    foundALPMLogs tailLines
      = tailLines.any (fun line => occursIn PACMAN_LOG_ALPM_MARKER.data line.data) := by
  have hgen : ∀ (ls : List String) (b : Bool),
      ls.foldl (fun found line => found || occursIn PACMAN_LOG_ALPM_MARKER.data line.data) b
        = (b || ls.any (fun line => occursIn PACMAN_LOG_ALPM_MARKER.data line.data)) := by
    intro ls
    induction ls with
    | nil => simp
    | cons x xs ih => intro b; simp [List.foldl_cons, ih, Bool.or_assoc]
  simpa [foundALPMLogs] using hgen tailLines false

/-! The claims. -/

/-- C1: `getChangelogs` implements the spec's parsing algorithm on every
output text, and on the scenario input
"Changelog for foo:\nline1\nChangelog for bar:\nline2\nline3\n" it yields
the mapping foo ↦ "line1\n", bar ↦ "line2\nline3\n". -/
theorem C1_getChangelogs :
    (∀ s : String, getChangelogs s = specGetChangelogs s) ∧
    getChangelogs "Changelog for foo:\nline1\nChangelog for bar:\nline2\nline3\n" =
      [("foo", "line1\n"), ("bar", "line2\nline3\n")] := by
  constructor
  · intro s
    have h := getChangelogsLoop_eq_spec (scanLines s) "" "" []
    simpa [getChangelogs, specGetChangelogs, toAcc] using h
  · decide

/-- C2 counterexample: in `archupd.go`'s `readNews`, a successful HTTP 200
fetch whose body fails to parse persists no state at all (the
`defer writeState` is registered only after the decode succeeds), contrary
to the claim that the updated cache-validator is still written. -/
theorem C2_counterexample :
    (Archupd.readNews State.zero
      (FetchOutcome.response 200 (some "Wed, 01 Jan 2025 00:00:00 GMT")
        (ParseOutcome.failure "XML syntax error"))).2 = [] := rfl

/-- C2 amended: on a successful HTTP 200 fetch, `updall.go`'s `readNews`
persists the state exactly once with the captured cache-validator
regardless of the parse outcome; `archupd.go`'s `readNews` persists it
exactly once (with the captured validator) when the parse succeeds, and
not at all when the parse fails. -/
theorem C2_amended (st : State) (lm : Option String) :
    (∀ body : ParseOutcome,
      (Updall.readNews st (FetchOutcome.response 200 lm body)).2.length = 1 ∧
      ∀ w ∈ (Updall.readNews st (FetchOutcome.response 200 lm body)).2,
        w.lastModified = (captureLastModified st lm).lastModified) ∧
    (∀ items : List FeedItem,
      (Archupd.readNews st (FetchOutcome.response 200 lm (ParseOutcome.success items))).2.length = 1 ∧
      ∀ w ∈ (Archupd.readNews st (FetchOutcome.response 200 lm (ParseOutcome.success items))).2,
        w.lastModified = (captureLastModified st lm).lastModified) ∧
    (∀ msg : String,
      (Archupd.readNews st (FetchOutcome.response 200 lm (ParseOutcome.failure msg))).2 = []) := by
  refine ⟨fun body => ?_, fun items => ?_, fun msg => rfl⟩
  · cases body with
    | failure msg => simp [Updall.readNews]
    | success items =>
      cases h : sortByTimeDesc items with
      | nil => simp [Updall.readNews, h]
      | cons first rest => simp [Updall.readNews, h]
  · cases h : sortByTimeDesc items with
    | nil => simp [Archupd.readNews, h]
    | cons first rest => simp [Archupd.readNews, h]

/-- Witness for C2 amended: a parse-failure poll of updall still persists
the captured validator "LMval". -/
theorem C2_amended_witness :
    ({ lastModified := "LMval", latestItemTime := 0 } : State).lastModified
      = (captureLastModified State.zero (some "LMval")).lastModified :=
  ((C2_amended State.zero (some "LMval")).1 (ParseOutcome.failure "bad")).2
    { lastModified := "LMval", latestItemTime := 0 } (by decide)

/-- C3: a log file with `pre` present at monitor-open time and `app`
appended afterwards: `catchUp` returns exactly the appended bytes and none
of the original ones, and the `lines` scanner of the archupd variant scans
exactly the appended content. -/
theorem C3_tail_isolation (pre app : List Char) :
    (newLogMonitor pre).catchUp (pre ++ app) = String.mk app ∧
    (newLogMonitor pre).lines (pre ++ app) = scanLines (String.mk app) := by
  constructor
  · simp [newLogMonitor, logMonitor.catchUp]
  · simp [newLogMonitor, logMonitor.lines]

/-- C4 counterexample: two successful non-empty polls where poll 2's only
item is older than poll 1's; the persisted watermark strictly decreases
(from 100 down to 50), refuting monotone non-decrease. -/
theorem C4_counterexample :
    (((Archupd.readNews
        (((Archupd.readNews State.zero
            (FetchOutcome.response 200 none
              (ParseOutcome.success [⟨"a", "la", 100, "g1"⟩]))).2).headD State.zero)
        (FetchOutcome.response 200 none
          (ParseOutcome.success [⟨"b", "lb", 50, "g2"⟩]))).2).headD State.zero).latestItemTime <
    (((Archupd.readNews State.zero
        (FetchOutcome.response 200 none
          (ParseOutcome.success [⟨"a", "la", 100, "g1"⟩]))).2).headD State.zero).latestItemTime := by
  decide

/-- C4 amended: after a successful non-empty poll the watermark equals the
maximum item timestamp of that poll, so it is non-decreasing provided the
poll's item list still contains some item at or after the stored
watermark (in particular whenever the feed only ever gains items). -/
theorem C4_amended (st : State) (lm : Option String) (items : List FeedItem)
    (hkeep : ∃ it, it ∈ items ∧ st.latestItemTime ≤ it.time) :
    ∀ w ∈ (Archupd.readNews st (FetchOutcome.response 200 lm (ParseOutcome.success items))).2,
      st.latestItemTime ≤ w.latestItemTime := by
  intro w hw
  obtain ⟨it, hmem, hle⟩ := hkeep
  cases h : sortByTimeDesc items with
  | nil =>
    have hp : List.Perm ([] : List FeedItem) items := h ▸ sortByTimeDesc_perm items
    rw [hp.symm.eq_nil] at hmem
    simp at hmem
  | cons first rest =>
    have hmax := sortByTimeDesc_head_max h it hmem
    simp only [Archupd.readNews, h] at hw
    simp at hw
    rw [hw]
    exact hle.trans hmax

/-- Witness for C4 amended: watermark 5, single item at time 7. -/
theorem C4_amended_witness :
    ({ lastModified := "", latestItemTime := 5 } : State).latestItemTime ≤
      ({ lastModified := "", latestItemTime := 7 } : State).latestItemTime :=
  C4_amended { lastModified := "", latestItemTime := 5 } none [⟨"t", "l", 7, "g"⟩]
    ⟨⟨"t", "l", 7, "g"⟩, by decide, by decide⟩
    { lastModified := "", latestItemTime := 7 } (by decide)

/-- C5: in a successful archupd poll, an item at or before the stored
watermark is never emitted as an item line, and an item strictly after it
is emitted exactly as often as it occurs in the feed (once for a feed that
lists it once); with the zero-valued state (absent state file) no
conditional-request header is sent, and a successfully fetched feed of 3
items newer than the zero watermark yields exactly 3 item lines and sets
the watermark to the newest item's timestamp. -/
theorem C5_watermark_filtering (st : State) (lm : Option String)
    (items : List FeedItem) (it : FeedItem) :
    ((it.time ≤ st.latestItemTime →
        Msg.itemLine it ∉
          (Archupd.readNews st (FetchOutcome.response 200 lm (ParseOutcome.success items))).1) ∧
      (st.latestItemTime < it.time →
        ((Archupd.readNews st (FetchOutcome.response 200 lm (ParseOutcome.success items))).1).count
            (Msg.itemLine it) = items.count it)) ∧
    condHeader State.zero = none ∧
    ((Archupd.readNews State.zero (FetchOutcome.response 200 (some "LM")
        (ParseOutcome.success
          [⟨"n1", "l1", 10, "g1"⟩, ⟨"n2", "l2", 30, "g2"⟩, ⟨"n3", "l3", 20, "g3"⟩]))).1.filter
        isItemMsg).length = 3 ∧
    (Archupd.readNews State.zero (FetchOutcome.response 200 (some "LM")
        (ParseOutcome.success
          [⟨"n1", "l1", 10, "g1"⟩, ⟨"n2", "l2", 30, "g2"⟩, ⟨"n3", "l3", 20, "g3"⟩]))).2
      = [{ lastModified := "LM", latestItemTime := 30 }] := by
  refine ⟨⟨?_, ?_⟩, by decide, by decide, by decide⟩
  · intro hle hmem
    have hfm : it ∈ ((Archupd.readNews st
        (FetchOutcome.response 200 lm (ParseOutcome.success items))).1).filterMap itemOf :=
      List.mem_filterMap.mpr ⟨Msg.itemLine it, hmem, rfl⟩
    rw [readNews_success_itemLines] at hfm
    have hp := List.of_mem_filter hfm
    simp at hp
    exact absurd hle (not_le.mpr hp)
  · intro hlt
    rw [count_itemLine, readNews_success_itemLines,
      List.count_filter (by simpa using hlt)]
    exact (sortByTimeDesc_perm items).count_eq it

/-- Witness for C5: an item at time 3 with stored watermark 5 is not
emitted, and an item at time 9 with watermark 5 is emitted once. -/
theorem C5_watermark_witness :
    Msg.itemLine ⟨"old", "l", 3, "g"⟩ ∉
      (Archupd.readNews { lastModified := "", latestItemTime := 5 }
        (FetchOutcome.response 200 none
          (ParseOutcome.success [⟨"old", "l", 3, "g"⟩, ⟨"new", "l", 9, "h"⟩]))).1 ∧
    ((Archupd.readNews { lastModified := "", latestItemTime := 5 }
        (FetchOutcome.response 200 none
          (ParseOutcome.success [⟨"old", "l", 3, "g"⟩, ⟨"new", "l", 9, "h"⟩]))).1).count
        (Msg.itemLine ⟨"new", "l", 9, "h"⟩)
      = List.count (⟨"new", "l", 9, "h"⟩ : FeedItem)
          [⟨"old", "l", 3, "g"⟩, ⟨"new", "l", 9, "h"⟩] :=
  ⟨(C5_watermark_filtering { lastModified := "", latestItemTime := 5 } none
      [⟨"old", "l", 3, "g"⟩, ⟨"new", "l", 9, "h"⟩] ⟨"old", "l", 3, "g"⟩).1.1 (by decide),
    (C5_watermark_filtering { lastModified := "", latestItemTime := 5 } none
      [⟨"old", "l", 3, "g"⟩, ⟨"new", "l", 9, "h"⟩] ⟨"new", "l", 9, "h"⟩).1.2 (by decide)⟩

/-- C6: the orphan query's exit code 1 (here with empty output) maps to
"no superfluous packages" (nil, no removal invoked), while every other
non-zero exit code is propagated to the caller as an error. -/
theorem C6_orphan_exit_codes :
    removeSuperfluousPackages (RunResult.exitError 1 "") = RemoveOutcome.noSuperfluous ∧
    ∀ (code : Int) (out : String), code ≠ 1 →
      removeSuperfluousPackages (RunResult.exitError code out) = RemoveOutcome.propagated code := by
  constructor
  · rfl
  · intro code out h
    simp [removeSuperfluousPackages, h]

/-- Witness for C6 at exit code 2. -/
theorem C6_orphan_exit_codes_witness :
    removeSuperfluousPackages (RunResult.exitError 2 "") = RemoveOutcome.propagated 2 :=
  C6_orphan_exit_codes.2 2 "" (by decide)

/-- C7: a package is rendered by the differ iff it is present in both maps
with differing text (so nothing is rendered when it is absent from the
pre map or the two texts agree); only post keys are considered; and the
"No updated changelogs." report is printed iff no package rendered. -/
theorem C7_changelog_diff (pre post : List (String × String)) (pkg : String)
    (hnd : (post.map Prod.fst).Nodup) :
    (pkg ∈ (showChangelogDiff pre post).1 ↔
      ∃ logPre logPost, mapLookup pre pkg = some logPre ∧
        mapLookup post pkg = some logPost ∧ logPre ≠ logPost) ∧
    ((showChangelogDiff pre post).2 = true ↔ (showChangelogDiff pre post).1 = []) := by
  constructor
  · constructor
    · intro hmem
      obtain ⟨kv, hkv, hfst⟩ := List.mem_map.mp hmem
      have hfil := List.mem_filter.mp hkv
      cases hlook : mapLookup pre kv.1 with
      | none => rw [hlook] at hfil; simp at hfil
      | some logPre =>
        rw [hlook] at hfil
        have hne : logPre ≠ kv.2 := by
          have := hfil.2
          simpa using this
        refine ⟨logPre, kv.2, ?_, ?_, hne⟩
        · rw [← hfst]; exact hlook
        · rw [← hfst]
          exact mem_mapLookup hnd hfil.1
    · rintro ⟨logPre, logPost, hpre, hpost, hne⟩
      have hmem : (pkg, logPost) ∈ post := mapLookup_mem hpost
      refine List.mem_map.mpr ⟨(pkg, logPost), List.mem_filter.mpr ⟨hmem, ?_⟩, rfl⟩
      simp only [hpre]
      simpa using hne
  · simp [showChangelogDiff, List.isEmpty_iff]

/-- Witness for C7: pre has a:"1" b:"2", post has a:"1x" c:"3"; package a
is rendered (changed text). -/
theorem C7_changelog_diff_witness :
    "a" ∈ (showChangelogDiff [("a", "1"), ("b", "2")] [("a", "1x"), ("c", "3")]).1 :=
  (C7_changelog_diff [("a", "1"), ("b", "2")] [("a", "1x"), ("c", "3")] "a"
      (by decide)).1.mpr ⟨"1", "1x", by decide, by decide, by decide⟩

/-- C8: the post-upgrade snapshot, the changelog diff, and the orphan
removal each execute iff some appended log line contains the ALPM marker
substring; with zero marker lines they are all skipped and the run is
exactly cleanup, pre-snapshot, watch-open, upgrade, tail-read, drain. -/
theorem C8_marker_gating (tailLines : List String) :
    (Step.snapshotPost ∈ mainSteps tailLines ↔
      ∃ line ∈ tailLines, PACMAN_LOG_ALPM_MARKER.data.IsInfix line.data) ∧
    (Step.diffChangelogs ∈ mainSteps tailLines ↔
      ∃ line ∈ tailLines, PACMAN_LOG_ALPM_MARKER.data.IsInfix line.data) ∧
    (Step.removeOrphans ∈ mainSteps tailLines ↔
      ∃ line ∈ tailLines, PACMAN_LOG_ALPM_MARKER.data.IsInfix line.data) ∧
    ((∀ line ∈ tailLines, ¬ PACMAN_LOG_ALPM_MARKER.data.IsInfix line.data) →
      mainSteps tailLines =
        [Step.cleanPacman, Step.snapshotPre, Step.watchOpen, Step.upgrade, Step.tailRead,
          Step.drainNews]) := by
  have hfound : foundALPMLogs tailLines = true ↔
      ∃ line ∈ tailLines, PACMAN_LOG_ALPM_MARKER.data.IsInfix line.data := by
    rw [foundALPMLogs_any, List.any_eq_true]
    constructor
    · rintro ⟨line, hmem, hocc⟩
      exact ⟨line, hmem, occursIn_iff.mp hocc⟩
    · rintro ⟨line, hmem, hinf⟩
      exact ⟨line, hmem, occursIn_iff.mpr hinf⟩
  by_cases hf : foundALPMLogs tailLines = true
  · refine ⟨?_, ?_, ?_, ?_⟩ <;> simp [mainSteps, hf, hfound.mp hf]
  · have hnone : ¬ ∃ line ∈ tailLines, PACMAN_LOG_ALPM_MARKER.data.IsInfix line.data :=
      fun hex => hf (hfound.mpr hex)
    have hfb : foundALPMLogs tailLines = false := by
      cases hfb : foundALPMLogs tailLines
      · rfl
      · exact absurd hfb hf
    refine ⟨?_, ?_, ?_, fun _ => ?_⟩ <;> simp [mainSteps, hfb, hnone]

/-- Witness for C8: no appended line at all means the conditional steps
are skipped. -/
theorem C8_marker_gating_witness :
    mainSteps [] =
      [Step.cleanPacman, Step.snapshotPre, Step.watchOpen, Step.upgrade, Step.tailRead,
        Step.drainNews] :=
  (C8_marker_gating []).2.2.2 (by simp)

/-- C9 counterexample: on malformed content whose decode fails after
best-effort population of `last_modified`, `readState` returns a non-zero
record with no diagnostic, and a missing state file also prints no
diagnostic — contradicting the claim that it returns the zero-valued
record and reports the underlying problem as a non-fatal diagnostic. -/
theorem C9_counterexample :
    (readState partialDecodeAbc
        (StateFileCond.opened
          "\x7b\"last_modified\":\"abc\",\"latest_seen\":\"notatime\"\x7d")).1
      ≠ State.zero ∧
    (readState partialDecodeAbc
        (StateFileCond.opened
          "\x7b\"last_modified\":\"abc\",\"latest_seen\":\"notatime\"\x7d")).2
      = [] ∧
    (readState partialDecodeAbc StateFileCond.notExist).2 = [] := by
  decide

/-- C9 amended: `readState` never fails its caller — a missing or
unreadable state file yields the zero-valued record, while opened content
yields whatever record the best-effort decode left behind (possibly
partially populated on malformed content), the decode error being
dropped; the only diagnostic printed is for an open error other than
`fs.ErrNotExist` — missing files and malformed content are silent. -/
theorem C9_readState_amended (dec : String → State × Bool) :
    readState dec StateFileCond.notExist = (State.zero, []) ∧
    (∀ msg, readState dec (StateFileCond.openFailed msg) = (State.zero, [msg])) ∧
    (∀ content, readState dec (StateFileCond.opened content) = ((dec content).1, [])) :=
  ⟨rfl, fun _ => rfl, fun _ => rfl⟩

/-- C10: on exit code 0 with empty captured output, splitting the trimmed
output yields `[""]`, so the removal command is invoked with a single
empty-string package argument; indeed on every clean-exit query the split
is non-empty, so the empty-list guard never fires and the outcome is
always the invoked removal, never the early "nothing to remove" return. -/
theorem C10_empty_output_split :
    removeSuperfluousPackages (RunResult.success "") = RemoveOutcome.removeInvoked [""] ∧
    ∀ output : String, removeSuperfluousPackages (RunResult.success output)
      = RemoveOutcome.removeInvoked (goSplitNl (trimRightNl output)) := by
  constructor
  · rfl
  · intro output
    have h := goSplitNl_ne_nil (trimRightNl output)
    simp [removeSuperfluousPackages, h]
